import Mathlib

/-!
Verification development for the `UltraSimpleFaceRecognition` pipeline
(`face_recognition_system/pipeline.py`).

The embedding below translates the pipeline's data model and operations into
Lean.  Python floats are modelled by `ℚ` for all quantities the code computes
by field arithmetic; the only transcendental step (`** 0.5` in the cosine
similarity) is modelled by `Real.sqrt` in the derived observation function
`ConfVal.conf`.  An image that PIL has decoded, converted to RGB and resized
to 64×64 is modelled by its pixel list (4096 RGB triples, each channel in
0..255); a file that could not be decoded is modelled by `none`.
The Pinecone client is external: its outcomes (success/raised exception) are
supplied as explicit environment values to each operation.
-/

namespace FaceRec

/-- A decoded pixel: (R, G, B) channel values. -/
abbrev Pixel := ℕ × ℕ × ℕ

/-- `sum(pixels[idx])` in the source: the sum of the three channels. -/
def pixSum (p : Pixel) : ℕ := p.1 + p.2.1 + p.2.2

/-- `sum(a * b for a, b in zip(query_features, stored_features))`:
dot product over the zipped prefix of the two lists. -/
def dotL : List ℚ → List ℚ → ℚ
  | a :: as, b :: bs => a * b + dotL as bs
  | _, _ => 0

/-- `sum(a * a for a in v)`: the squared Euclidean norm (the source takes
`** 0.5` of this to obtain the norm). -/
def sqL : List ℚ → ℚ
  | a :: as => a * a + sqL as
  | [] => 0

/-- `while len(features) < 128: features.append(0.0)` followed by
`features[:128]`: zero-pad to 128 entries, then truncate to 128. -/
def padTo128 (l : List ℚ) : List ℚ :=
  (l ++ List.replicate (128 - l.length) 0).take 128

/-- Python `max(vs)` on a channel list (nonempty in every reachable call;
the empty case is given a default so the model is total). -/
def listMax (vs : List ℕ) : ℕ :=
  match vs with
  | [] => 0
  | h :: t => t.foldl max h

/-- Python `min(vs)` on a channel list (nonempty in every reachable call). -/
def listMin (vs : List ℕ) : ℕ :=
  match vs with
  | [] => 0
  | h :: t => t.foldl min h

/-- Per-channel statistics block of `_extract_image_features` (PIL path):
`[mean, max, min, fraction of values above 128]`.
Python raises `ZeroDivisionError` on an empty channel (caught, yielding
`None`); the model is total via `ℚ` division, and callers always supply the
4096 resize pixels. -/
def channelStats (vs : List ℕ) : List ℚ :=
  [((vs.map (fun v : ℕ => (v : ℚ))).sum) / (vs.length : ℚ),
   (listMax vs : ℚ),
   (listMin vs : ℚ),
   ((vs.filter (fun v => 128 < v)).length : ℚ) / (vs.length : ℚ)]

/-- The bin index `min(val // 32, 7)` of the source's histogram loop. -/
def binIdx (v : ℕ) : ℕ := min (v / 32) 7

/-- Histogram block of `_extract_image_features` (PIL path): the loop
`for val in channel_values: bins[min(val // 32, 7)] += 1` accumulates, for
each bin `j`, the count of values whose bin index is `j`; the bins are then
normalized by their total when the total is positive. -/
def histBins (vs : List ℕ) : List ℚ :=
  let bins : List ℕ := (List.range 8).map (fun j => vs.countP (fun v => binIdx v == j))
  let total : ℕ := bins.sum
  if 0 < total then bins.map (fun b : ℕ => (b : ℚ) / (total : ℚ))
  else bins.map (fun b : ℕ => (b : ℚ))

/-- Edge block: `for i in range(len(pixels) - 1)` counts adjacent pixel
pairs whose intensity-sum difference exceeds 100. -/
def edgeCount (pixels : List Pixel) : ℕ :=
  (pixels.zip pixels.tail).countP
    (fun pq => 100 < (((pixSum pq.1 : ℤ) - (pixSum pq.2 : ℤ)).natAbs))

/-- Quadrant pixel collection: for the quadrant anchored at `(qy, qx)`,
`for y in range(quad_y, min(quad_y + 16, 64)): for x in range(quad_x,
min(quad_x + 16, 64)): idx = y * 64 + x; if idx < len(pixels):
quad_pixels.append(sum(pixels[idx]))`. -/
def quadPixels (pixels : List Pixel) (qy qx : ℕ) : List ℕ :=
  (List.range' qy (min (qy + 16) 64 - qy)).flatMap (fun y =>
    (List.range' qx (min (qx + 16) 64 - qx)).filterMap (fun x =>
      if y * 64 + x < pixels.length then some (pixSum (pixels.getD (y * 64 + x) (0, 0, 0)))
      else none))

/-- Quadrant block: for each of the 16 quadrants (`range(0, 64, 16)` on each
axis), append `avg_intensity / 765.0` when the quadrant is nonempty. -/
def quadFeatures (pixels : List Pixel) : List ℚ :=
  ([0, 16, 32, 48] : List ℕ).flatMap (fun qy =>
    ([0, 16, 32, 48] : List ℕ).flatMap (fun qx =>
      let qp := quadPixels pixels qy qx
      if qp.isEmpty then []
      else [(((qp.map (fun v : ℕ => (v : ℚ))).sum / (qp.length : ℚ)) / 765)]))

/-- `_extract_image_features`, PIL path (lines 156–226): statistics,
histogram, edge density and quadrant blocks, zero-padded/truncated to 128. -/
def extract_image_features_pil (pixels : List Pixel) : List ℚ :=
  let r_values := pixels.map (fun p => p.1)
  let g_values := pixels.map (fun p => p.2.1)
  let b_values := pixels.map (fun p => p.2.2)
  let stats := channelStats r_values ++ channelStats g_values ++ channelStats b_values
  let hists := histBins r_values ++ histBins g_values ++ histBins b_values
  let edge : List ℚ := [(edgeCount pixels : ℚ) / (pixels.length : ℚ)]
  padTo128 (stats ++ hists ++ edge ++ quadFeatures pixels)

/-- The confidence value carried by a match entry.  The Pinecone branch
stores `float(match['score']) * 100`; the local branch stores
`(dot_product / (norm_a * norm_b)) * 100`, which we keep in its exact
rational components `(dot, Σa², Σb²)` so the operations stay executable;
the real value is recovered by `ConfVal.conf`. -/
inductive ConfVal where
  | remote (score : ℚ)
  | cosine (dot sa sb : ℚ)
  deriving DecidableEq, Repr

/-- The real-valued confidence: `score * 100` for a remote match,
`(dot / (sqrt sa * sqrt sb)) * 100` for a local cosine match (the source
computes the norms as `(Σ a²) ** 0.5`). -/
noncomputable def ConfVal.conf : ConfVal → ℝ
  | .remote s => (s : ℝ) * 100
  | .cosine d sa sb => ((d : ℝ) / (Real.sqrt (sa : ℝ) * Real.sqrt (sb : ℝ))) * 100

/-- Numerator of the normalized form `conf = (keyNum / sqrt keyDen) * 100`
of a confidence value (used only to decide real comparisons exactly). -/
def ConfVal.keyNum : ConfVal → ℚ
  | .remote s => s
  | .cosine d sa sb => if 0 < sa ∧ 0 < sb then d else 0

/-- Denominator-square of the normalized form of a confidence value;
always positive. -/
def ConfVal.keyDen : ConfVal → ℚ
  | .remote _ => 1
  | .cosine _ sa sb => if 0 < sa ∧ 0 < sb then sa * sb else 1

/-- One entry of the list returned by `recognize_student`
(`{"roll_no": …, "name": …, "confidence": …, "is_match": …, "method": …}`);
`is_match` is the derived predicate `MatchResult.is_match`. -/
structure MatchResult where
  roll_no : String
  name : String
  confVal : ConfVal
  method : String
  deriving DecidableEq, Repr

/-- `"is_match": confidence > 60` stored in each returned entry. -/
noncomputable def MatchResult.is_match (m : MatchResult) : Prop :=
  60 < m.confVal.conf

/-- Exact decision of `n2 / sqrt q2 ≤ n1 / sqrt q1` for positive `q1`, `q2`
by sign analysis and squaring (no square roots needed). -/
def ratSqGe (n1 q1 n2 q2 : ℚ) : Bool :=
  if 0 ≤ n1 then
    (if 0 ≤ n2 then decide (n2 ^ 2 * q1 ≤ n1 ^ 2 * q2) else true)
  else
    (if 0 ≤ n2 then false else decide (n1 ^ 2 * q2 ≤ n2 ^ 2 * q1))

/-- The comparator used to model `matches.sort(key=lambda x: x['confidence'],
reverse=True)`: decides `b.confidence ≤ a.confidence` exactly
(lemma `confGe_iff`). -/
def confGe (a b : MatchResult) : Bool :=
  ratSqGe a.confVal.keyNum a.confVal.keyDen b.confVal.keyNum b.confVal.keyDen

/-- The per-identifier record stored in `local_storage` (and as a JSON
object on disk): `{"roll_no", "name", "features", "enrolled_at",
"images_processed"}`. -/
structure StudentData where
  roll_no : String
  name : String
  features : List ℚ
  enrolled_at : String
  images_processed : ℕ
  deriving DecidableEq, Repr

/-- The in-memory `self.local_storage` dict and its on-disk JSON document:
an insertion-ordered association list with unique keys. -/
abbrev Storage := List (String × StudentData)

/-- Python dict assignment `d[k] = v`: replaces the value in place when the
key is present, appends otherwise. -/
def dictSet (m : Storage) (k : String) (v : StudentData) : Storage :=
  if m.any (fun p => p.1 == k) then m.map (fun p => if p.1 == k then (k, v) else p)
  else m ++ [(k, v)]

/-- Python dict lookup `d.get(k)` (keys are unique in every reachable
state, so the first hit is the binding). -/
def dictGet (m : Storage) (k : String) : Option StudentData :=
  (m.find? (fun p => p.1 == k)).map Prod.snd

/-- The mutable state of an `UltraSimpleFaceRecognition` object:
whether `self.index` holds a live Pinecone index handle, the in-memory
`self.local_storage` dict, and the on-disk `local_face_storage.json`
document (`none` when the file is absent or unparseable). -/
structure SysState where
  index : Bool
  local_storage : Storage
  disk : Option Storage
  deriving DecidableEq, Repr

/-- Outcome of `_setup_pinecone`: the client constructor raised, the
configured index name was not among `list_indexes()`, or the handle was
obtained. -/
inductive SetupOutcome where
  | clientFail
  | indexMissing
  | ok
  deriving DecidableEq, Repr

/-- `__init__` (lines 36–72): `self.index` is set only when Pinecone is
importable, both credentials were supplied, and `_setup_pinecone` finds the
configured index; `self.local_storage` is loaded from the disk document
(`{}` when absent/unparseable). -/
def initState (pineconeAvailable keyProvided envProvided : Bool)
    (setup : SetupOutcome) (disk : Option Storage) : SysState :=
  { index := pineconeAvailable && keyProvided && envProvided &&
      (match setup with | .ok => true | _ => false),
    local_storage := disk.getD [],
    disk := disk }

/-- An image file inside the enrollment folder: its filename suffix and the
decoded 64×64 pixel raster (`none` when `Image.open`/decode raises, which
the extractor turns into "no vector produced"). -/
structure ImageFile where
  suffix : String
  decoded : Option (List Pixel)
  deriving DecidableEq, Repr

/-- The extension whitelist of `enroll_student`. -/
def imageExtensions : List String := [".jpg", ".jpeg", ".png", ".bmp", ".gif"]

/-- Python `str.lower()` on a filename suffix (character-wise ASCII
lowercasing, which is what `.lower()` does on extension strings). -/
def lowerStr (s : String) : String := ⟨s.data.map Char.toLower⟩

/-- `_extract_image_features` applied to one folder image on the PIL path. -/
def extractOf (f : ImageFile) : Option (List ℚ) :=
  f.decoded.map extract_image_features_pil

/-- The element-wise average of lines 276–282: when more than one feature
vector was produced, `averaged[i] = (Σ feat[i]) / n` over `range(len(all_features[0]))`
(Python indexing is modelled by `getD`, in range in every reachable call
since all extractor outputs have length 128); otherwise the single vector. -/
def averageFeatures (l : List (List ℚ)) : List ℚ :=
  match l with
  | [] => []
  | f :: _ =>
    if 1 < l.length then
      (List.range f.length).map (fun i => (l.map (fun g => g.getD i 0)).sum / (l.length : ℚ))
    else f

/-- Outcome of the external `self.index.upsert` call. -/
inductive RemoteWriteResult where
  | ok
  | err
  deriving DecidableEq, Repr

/-- Environment of one `enroll_student` call: whether the Pinecone upsert
succeeds or raises, and whether the `open(..., 'w')`/`json.dump` in
`_save_local_storage` succeeds (its failure is caught and only logged). -/
structure EnrollEnv where
  upsert : RemoteWriteResult
  saveOk : Bool
  deriving DecidableEq, Repr

/-- `_save_local_storage` (lines 107–113): writes the in-memory dict to the
disk document; any write failure is swallowed (the state is simply not
persisted). -/
def saveLocal (s : SysState) (saveOk : Bool) : SysState :=
  if saveOk then { s with disk := some s.local_storage } else s

/-- `image_files`: the folder entries whose lowercased suffix is in the
extension whitelist. -/
def goodImages (files : List ImageFile) : List ImageFile :=
  files.filter (fun f => imageExtensions.contains (lowerStr f.suffix))

/-- `all_features` of `enroll_student`: one feature vector per image file,
keeping a vector only when it is truthy (`if features:` — not `None` and
nonempty). -/
def collectFeatures (files : List ImageFile) : List (List ℚ) :=
  (goodImages files).filterMap (fun f =>
    match extractOf f with
    | some fs => if fs.isEmpty then none else some fs
    | none => none)

/-- The `student_data` record assembled at lines 285–291. -/
def enrollData (roll_no student_name : String) (files : List ImageFile) (now : String) :
    StudentData :=
  ⟨roll_no, student_name, averageFeatures (collectFeatures files), now,
    (collectFeatures files).length⟩

/-- `enroll_student` (lines 232–322).  The folder is `none` when
`image_folder.exists()` is false, otherwise the list of directory entries.
Returns the success boolean and the new state. -/
def enroll_student (s : SysState) (roll_no student_name : String)
    (folder : Option (List ImageFile)) (now : String) (env : EnrollEnv) :
    Bool × SysState :=
  match folder with
  | none => (false, s)
  | some files =>
    if (goodImages files).length < 1 then (false, s)
    else if (collectFeatures files).isEmpty then (false, s)
    else if s.index then
      match env.upsert with
      | .ok => (true, s)  -- stored in Pinecone only; local state untouched
      | .err =>           -- caught: fall back to local storage for this call
        (true, saveLocal
          { s with local_storage :=
              dictSet s.local_storage roll_no (enrollData roll_no student_name files now) }
          env.saveOk)
    else
      (true, saveLocal
        { s with local_storage :=
            dictSet s.local_storage roll_no (enrollData roll_no student_name files now) }
        env.saveOk)

/-- Outcome of the external `self.index.query` call: the matches it returns
(`roll_no`, `name`, `score` each) or a raised exception. -/
inductive RemoteQueryResult where
  | ok (found : List (String × String × ℚ))
  | err
  deriving DecidableEq, Repr

/-- The entry the local fallback loop builds for one stored record from the
query vector `q` (lines 388–394). -/
def localEntry (q : List ℚ) (d : StudentData) : MatchResult :=
  ⟨d.roll_no, d.name, ConfVal.cosine (dotL q d.features) (sqL q) (sqL d.features), "local"⟩

/-- The local fallback of `recognize_student` (lines 375–399): for each
stored record compute the cosine-similarity entry, keeping it only when
both norms are positive (`norm_a > 0 and norm_b > 0`; for the float norms
`(Σ a²) ** 0.5 > 0` iff `Σ a² > 0`), then sort by confidence descending and
truncate to `top_k`. -/
def localCandidates (q : List ℚ) (storage : Storage) : List MatchResult :=
  storage.filterMap (fun p =>
    if 0 < sqL q ∧ 0 < sqL p.2.features then some (localEntry q p.2) else none)

/-- The sorted, truncated local fallback result (`matches.sort(...,
reverse=True)` followed by `matches[:top_k]`). -/
def localRecognize (q : List ℚ) (storage : Storage) (top_k : ℕ) : List MatchResult :=
  ((localCandidates q storage).mergeSort confGe).take top_k

/-- `recognize_student` (lines 324–403).  `img` is the decoded query image
(`none` when extraction failed); `remote` is the outcome of the Pinecone
query when one is attempted.  Returns the match list and the (unchanged)
state, threading the state exactly as the method does. -/
def recognize_student (s : SysState) (img : Option (List Pixel)) (top_k : ℕ)
    (remote : RemoteQueryResult) : List MatchResult × SysState :=
  match img.map extract_image_features_pil with
  | none => ([], s)
  | some q =>
    if q.isEmpty then ([], s)  -- `if not query_features: return []`
    else if s.index then
      match remote with
      | .ok rms =>
        (rms.map (fun t => ⟨t.1, t.2.1, ConfVal.remote t.2.2, "pinecone"⟩), s)
      | .err => (localRecognize q s.local_storage top_k, s)
    else (localRecognize q s.local_storage top_k, s)

/-- The document returned by `get_system_stats`. -/
structure StatsResult where
  total_enrolled_students : ℕ
  storage_method : String
  status : String
  deriving DecidableEq, Repr

/-- `get_system_stats` (lines 405–427): prefer `describe_index_stats`
(whose outcome, a vector count or a raised exception, is the `remote`
argument); fall back to local counts. -/
def get_system_stats (s : SysState) (remote : Option ℕ) : StatsResult × SysState :=
  if s.index then
    match remote with
    | some n => (⟨n, "pinecone", "operational"⟩, s)
    | none => (⟨s.local_storage.length, "local", "operational"⟩, s)
  else (⟨s.local_storage.length, "local", "operational"⟩, s)

/-- `delete_student` (lines 429–446): best-effort remote delete (external,
exceptions swallowed, no modelled state), then removal from the local dict
when present, followed by a save. -/
def delete_student (s : SysState) (roll_no : String) (saveOk : Bool) :
    Bool × SysState :=
  if s.local_storage.any (fun p => p.1 == roll_no) then
    (true, saveLocal { s with local_storage := s.local_storage.filter (fun p => p.1 != roll_no) } saveOk)
  else (true, s)

/-- `_extract_image_features`, degraded byte path (lines 126–154, taken when
PIL is unavailable): features from the raw file bytes (`content`, with
`stat.st_size = content.length` for a regular file) and the bytes of the
content digest (`digest`, the 16 MD5 bytes, kept abstract since the hash is
an external library call). -/
def extract_image_features_nopil (content : List ℕ) (digest : List ℕ) : List ℚ :=
  let base : List ℚ :=
    [((content.length % 1000 : ℕ) : ℚ),
     ((content.length % 100 : ℕ) : ℚ),
     ((((content.take 100).sum) % 256 : ℕ) : ℚ),
     ((((content.drop (content.length - 100)).sum) % 256 : ℕ) : ℚ)]
  let m := min digest.length 32
  let hashFeats : List ℚ :=
    (List.range ((m + 3) / 4)).map (fun j => ((((digest.drop (4 * j)).take 4).sum : ℚ) / 255))
  padTo128 (base ++ hashFeats)

/-- A normalized 8-bin histogram with all mass in bin 0 (all channel values
below 32, as in the all-black raster). -/
def bin0Hist : List ℚ := [1] ++ List.replicate 7 0

/-- A normalized 8-bin histogram with all mass in bin 7 (all channel values
at least 224, as in the all-white raster). -/
def bin7Hist : List ℚ := List.replicate 7 0 ++ [1]

/-- The element-wise mean of `bin0Hist` and `bin7Hist`. -/
def binAvgHist : List ℚ := [1/2] ++ (List.replicate 6 0 ++ [1/2])

/-- The feature vector of the all-black 64×64 raster: zero channel
statistics, histogram mass in bin 0, zero edge density and quadrant
averages, padded to 128. -/
def blackVec : List ℚ :=
  List.replicate 12 0 ++
    ((bin0Hist ++ (bin0Hist ++ bin0Hist)) ++
      ([0] ++ (List.replicate 16 0 ++ List.replicate 75 0)))

/-- The feature vector of the all-white 64×64 raster: channel means/max/min
at 255, bright-pixel ratio 1, histogram mass in bin 7, zero edge density,
quadrant averages 1, padded to 128. -/
def whiteVec : List ℚ :=
  [255, 255, 255, 1, 255, 255, 255, 1, 255, 255, 255, 1] ++
    ((bin7Hist ++ (bin7Hist ++ bin7Hist)) ++
      ([0] ++ (List.replicate 16 1 ++ List.replicate 75 0)))

/-- The element-wise mean of `blackVec` and `whiteVec`. -/
def bwAvgVec : List ℚ :=
  [255/2, 255/2, 255/2, 1/2, 255/2, 255/2, 255/2, 1/2, 255/2, 255/2, 255/2, 1/2] ++
    ((binAvgHist ++ (binAvgHist ++ binAvgHist)) ++
      ([0] ++ (List.replicate 16 (1/2) ++ List.replicate 75 0)))

/-! ### Basic lemmas about the vector arithmetic -/

theorem length_padTo128 (l : List ℚ) : (padTo128 l).length = 128 := by
  simp [padTo128]
  omega

theorem length_extract_pil (pixels : List Pixel) :
    (extract_image_features_pil pixels).length = 128 := by
  simp [extract_image_features_pil, length_padTo128]

theorem length_extract_nopil (content digest : List ℕ) :
    (extract_image_features_nopil content digest).length = 128 := by
  simp [extract_image_features_nopil, length_padTo128]

theorem sqL_nonneg (l : List ℚ) : 0 ≤ sqL l := by
  induction l with
  | nil => simp [sqL]
  | cons a t ih => simpa [sqL] using add_nonneg (mul_self_nonneg a) ih

theorem dotL_nonneg {a b : List ℚ} (ha : ∀ x ∈ a, 0 ≤ x) (hb : ∀ x ∈ b, 0 ≤ x) :
    0 ≤ dotL a b := by
  induction a generalizing b with
  | nil => simp [dotL]
  | cons x xs ih =>
    cases b with
    | nil => simp [dotL]
    | cons y ys =>
      have hx : 0 ≤ x := ha x (by simp)
      have hy : 0 ≤ y := hb y (by simp)
      have h1 : ∀ z ∈ xs, 0 ≤ z := fun z hz => ha z (by simp [hz])
      have h2 : ∀ z ∈ ys, 0 ≤ z := fun z hz => hb z (by simp [hz])
      simpa [dotL] using add_nonneg (mul_nonneg hx hy) (ih h1 h2)

/-- Cauchy–Schwarz for the zipped dot product. -/
theorem dotL_sq_le (a b : List ℚ) : (dotL a b) ^ 2 ≤ sqL a * sqL b := by
  induction a generalizing b with
  | nil => simp [dotL, sqL]
  | cons x xs ih =>
    cases b with
    | nil => simp [dotL, sqL]
    | cons y ys =>
      have hd := ih ys
      have hA := sqL_nonneg xs
      have hB := sqL_nonneg ys
      simp only [dotL, sqL]
      rcases eq_or_lt_of_le hB with hB0 | hBpos
      · have hdz : dotL xs ys = 0 := by
          have h2 : (dotL xs ys) ^ 2 ≤ 0 := by
            calc (dotL xs ys) ^ 2 ≤ sqL xs * sqL ys := hd
            _ = 0 := by rw [← hB0]; ring
          have := sq_nonneg (dotL xs ys)
          nlinarith [sq_abs (dotL xs ys)]
        rw [hdz, ← hB0]
        nlinarith [sq_nonneg y, sq_nonneg x, mul_nonneg hA (sq_nonneg y)]
      · nlinarith [sq_nonneg (x * sqL ys - y * dotL xs ys),
          mul_nonneg (sq_nonneg y) (sub_nonneg.2 hd),
          mul_nonneg (le_of_lt hBpos) (sub_nonneg.2 hd)]

/-! ### The comparator decides the real confidence order -/

theorem keyDen_pos (c : ConfVal) : 0 < c.keyDen := by
  cases c with
  | remote s => simp [ConfVal.keyDen]
  | cosine d sa sb =>
    simp only [ConfVal.keyDen]
    split
    · rename_i h
      exact mul_pos h.1 h.2
    · norm_num

theorem conf_eq_key (c : ConfVal) :
    c.conf = ((c.keyNum : ℝ) / Real.sqrt (c.keyDen : ℝ)) * 100 := by
  cases c with
  | remote s => simp [ConfVal.conf, ConfVal.keyNum, ConfVal.keyDen]
  | cosine d sa sb =>
    by_cases h : 0 < sa ∧ 0 < sb
    · have hsa : (0 : ℝ) ≤ (sa : ℚ) := by exact_mod_cast le_of_lt h.1
      simp only [ConfVal.conf, ConfVal.keyNum, ConfVal.keyDen, if_pos h]
      rw [Rat.cast_mul, Real.sqrt_mul hsa]
    · have hz : Real.sqrt (sa : ℝ) * Real.sqrt (sb : ℝ) = 0 := by
        rcases not_and_or.mp h with hsa | hsb
        · have : ((sa : ℝ)) ≤ 0 := by exact_mod_cast le_of_not_lt hsa
          rw [Real.sqrt_eq_zero'.mpr this, zero_mul]
        · have : ((sb : ℝ)) ≤ 0 := by exact_mod_cast le_of_not_lt hsb
          rw [Real.sqrt_eq_zero'.mpr this, mul_zero]
      simp [ConfVal.conf, ConfVal.keyNum, ConfVal.keyDen, if_neg h, hz]

theorem ratSqGe_iff {n1 q1 n2 q2 : ℚ} (hq1 : 0 < q1) (hq2 : 0 < q2) :
    ratSqGe n1 q1 n2 q2 = true ↔
      (n2 : ℝ) / Real.sqrt (q2 : ℝ) ≤ (n1 : ℝ) / Real.sqrt (q1 : ℝ) := by
  have hs1 : (0 : ℝ) < Real.sqrt (q1 : ℝ) := Real.sqrt_pos.mpr (by exact_mod_cast hq1)
  have hs2 : (0 : ℝ) < Real.sqrt (q2 : ℝ) := Real.sqrt_pos.mpr (by exact_mod_cast hq2)
  have hdiv : ((n2 : ℝ) / Real.sqrt (q2 : ℝ) ≤ (n1 : ℝ) / Real.sqrt (q1 : ℝ)) ↔
      (n2 : ℝ) * Real.sqrt (q1 : ℝ) ≤ (n1 : ℝ) * Real.sqrt (q2 : ℝ) :=
    div_le_div_iff₀ hs2 hs1
  have hsq1 : Real.sqrt (q1 : ℝ) ^ 2 = (q1 : ℝ) := Real.sq_sqrt (le_of_lt (by exact_mod_cast hq1))
  have hsq2 : Real.sqrt (q2 : ℝ) ^ 2 = (q2 : ℝ) := Real.sq_sqrt (le_of_lt (by exact_mod_cast hq2))
  rw [hdiv]
  by_cases h1 : 0 ≤ n1
  · by_cases h2 : 0 ≤ n2
    · have h1R : (0 : ℝ) ≤ (n1 : ℝ) := by exact_mod_cast h1
      have h2R : (0 : ℝ) ≤ (n2 : ℝ) := by exact_mod_cast h2
      simp only [ratSqGe, if_pos h1, if_pos h2, decide_eq_true_eq]
      constructor
      · intro hle
        have hleR : (n2 : ℝ) ^ 2 * (q1 : ℝ) ≤ (n1 : ℝ) ^ 2 * (q2 : ℝ) := by exact_mod_cast hle
        nlinarith [mul_nonneg h2R (le_of_lt hs1), mul_nonneg h1R (le_of_lt hs2),
          sq_nonneg ((n2 : ℝ) * Real.sqrt (q1 : ℝ) - (n1 : ℝ) * Real.sqrt (q2 : ℝ)),
          sq_nonneg ((n2 : ℝ) * Real.sqrt (q1 : ℝ) + (n1 : ℝ) * Real.sqrt (q2 : ℝ))]
      · intro hle
        have hsqle : ((n2 : ℝ) * Real.sqrt (q1 : ℝ)) ^ 2 ≤ ((n1 : ℝ) * Real.sqrt (q2 : ℝ)) ^ 2 := by
          have hnn : (0 : ℝ) ≤ (n2 : ℝ) * Real.sqrt (q1 : ℝ) := mul_nonneg h2R (le_of_lt hs1)
          exact pow_le_pow_left₀ hnn hle 2
        have : (n2 : ℝ) ^ 2 * (q1 : ℝ) ≤ (n1 : ℝ) ^ 2 * (q2 : ℝ) := by
          calc (n2 : ℝ) ^ 2 * (q1 : ℝ) = ((n2 : ℝ) * Real.sqrt (q1 : ℝ)) ^ 2 := by
                rw [mul_pow, hsq1]
          _ ≤ ((n1 : ℝ) * Real.sqrt (q2 : ℝ)) ^ 2 := hsqle
          _ = (n1 : ℝ) ^ 2 * (q2 : ℝ) := by rw [mul_pow, hsq2]
        exact_mod_cast this
    · have h1R : (0 : ℝ) ≤ (n1 : ℝ) := by exact_mod_cast h1
      have h2R : (n2 : ℝ) < 0 := by exact_mod_cast lt_of_not_le h2
      simp only [ratSqGe, if_pos h1, if_neg h2, true_iff]
      have hlt : (n2 : ℝ) * Real.sqrt (q1 : ℝ) < 0 := mul_neg_of_neg_of_pos h2R hs1
      have hge : (0 : ℝ) ≤ (n1 : ℝ) * Real.sqrt (q2 : ℝ) := mul_nonneg h1R (le_of_lt hs2)
      linarith
  · by_cases h2 : 0 ≤ n2
    · have h1R : (n1 : ℝ) < 0 := by exact_mod_cast lt_of_not_le h1
      have h2R : (0 : ℝ) ≤ (n2 : ℝ) := by exact_mod_cast h2
      simp only [ratSqGe, if_neg h1, if_pos h2]
      have hlt : (n1 : ℝ) * Real.sqrt (q2 : ℝ) < 0 := mul_neg_of_neg_of_pos h1R hs2
      have hge : (0 : ℝ) ≤ (n2 : ℝ) * Real.sqrt (q1 : ℝ) := mul_nonneg h2R (le_of_lt hs1)
      constructor
      · intro hfalse
        exact absurd hfalse (by simp)
      · intro hle
        exact absurd (le_trans hge hle) (not_le.mpr hlt)
    · have h1R : (n1 : ℝ) < 0 := by exact_mod_cast lt_of_not_le h1
      have h2R : (n2 : ℝ) < 0 := by exact_mod_cast lt_of_not_le h2
      simp only [ratSqGe, if_neg h1, if_neg h2, decide_eq_true_eq]
      constructor
      · intro hle
        have hleR : (n1 : ℝ) ^ 2 * (q2 : ℝ) ≤ (n2 : ℝ) ^ 2 * (q1 : ℝ) := by exact_mod_cast hle
        nlinarith [mul_pos (neg_pos.mpr h1R) hs2, mul_pos (neg_pos.mpr h2R) hs1,
          sq_nonneg ((n1 : ℝ) * Real.sqrt (q2 : ℝ) - (n2 : ℝ) * Real.sqrt (q1 : ℝ)),
          sq_nonneg ((n1 : ℝ) * Real.sqrt (q2 : ℝ) + (n2 : ℝ) * Real.sqrt (q1 : ℝ))]
      · intro hle
        have hneg : (-(n1 : ℝ)) * Real.sqrt (q2 : ℝ) ≤ (-(n2 : ℝ)) * Real.sqrt (q1 : ℝ) := by
          nlinarith
        have hnn : (0 : ℝ) ≤ (-(n1 : ℝ)) * Real.sqrt (q2 : ℝ) :=
          mul_nonneg (le_of_lt (neg_pos.mpr h1R)) (le_of_lt hs2)
        have hsqle := pow_le_pow_left₀ hnn hneg 2
        have : (n1 : ℝ) ^ 2 * (q2 : ℝ) ≤ (n2 : ℝ) ^ 2 * (q1 : ℝ) := by
          calc (n1 : ℝ) ^ 2 * (q2 : ℝ) = ((-(n1 : ℝ)) * Real.sqrt (q2 : ℝ)) ^ 2 := by
                rw [mul_pow, hsq2]; ring
          _ ≤ ((-(n2 : ℝ)) * Real.sqrt (q1 : ℝ)) ^ 2 := hsqle
          _ = (n2 : ℝ) ^ 2 * (q1 : ℝ) := by rw [mul_pow, hsq1]; ring
        exact_mod_cast this

/-- `confGe a b` decides `b.confidence ≤ a.confidence` exactly. -/
theorem confGe_iff (a b : MatchResult) :
    confGe a b = true ↔ b.confVal.conf ≤ a.confVal.conf := by
  rw [confGe, ratSqGe_iff (keyDen_pos a.confVal) (keyDen_pos b.confVal),
    conf_eq_key a.confVal, conf_eq_key b.confVal]
  constructor
  · intro h
    exact mul_le_mul_of_nonneg_right h (by norm_num)
  · intro h
    have := mul_le_mul_of_nonneg_right h (show (0 : ℝ) ≤ 1 / 100 by norm_num)
    calc b.confVal.keyNum / Real.sqrt (b.confVal.keyDen : ℝ)
        = b.confVal.keyNum / Real.sqrt (b.confVal.keyDen : ℝ) * 100 * (1 / 100) := by ring
    _ ≤ a.confVal.keyNum / Real.sqrt (a.confVal.keyDen : ℝ) * 100 * (1 / 100) := this
    _ = a.confVal.keyNum / Real.sqrt (a.confVal.keyDen : ℝ) := by ring

theorem confGe_total (a b : MatchResult) : (confGe a b || confGe b a) = true := by
  rcases le_total b.confVal.conf a.confVal.conf with h | h
  · simp [(confGe_iff a b).mpr h]
  · simp [(confGe_iff b a).mpr h]

theorem confGe_trans (a b c : MatchResult)
    (h1 : confGe a b = true) (h2 : confGe b c = true) : confGe a c = true :=
  (confGe_iff a c).mpr (le_trans ((confGe_iff b c).mp h2) ((confGe_iff a b).mp h1))

/-! ### Structure of the local fallback result -/

/-- Every entry of the local fallback result comes from a stored record via
`localEntry`, and is produced only when both squared norms are positive. -/
theorem mem_localRecognize {q : List ℚ} {storage : Storage} {k : ℕ}
    {m : MatchResult} (hm : m ∈ localRecognize q storage k) :
    0 < sqL q ∧ ∃ p ∈ storage, 0 < sqL p.2.features ∧ m = localEntry q p.2 := by
  have hm1 : m ∈ localCandidates q storage := by
    have h2 := List.mem_of_mem_take hm
    exact ((List.mergeSort_perm _ confGe).mem_iff).mp h2
  rcases List.mem_filterMap.mp hm1 with ⟨p, hp, hsome⟩
  by_cases h : 0 < sqL q ∧ 0 < sqL p.2.features
  · rw [if_pos h] at hsome
    exact ⟨h.1, p, hp, h.2, (Option.some_inj.mp hsome).symm⟩
  · rw [if_neg h] at hsome
    exact absurd hsome (by simp)

/-- The local fallback result is sorted by confidence, descending. -/
theorem localRecognize_sorted (q : List ℚ) (storage : Storage) (k : ℕ) :
    List.Sorted (fun x y : MatchResult => y.confVal.conf ≤ x.confVal.conf)
      (localRecognize q storage k) := by
  have hs := @List.sorted_mergeSort MatchResult confGe confGe_trans confGe_total
    (localCandidates q storage)
  have hs2 : List.Pairwise (fun x y : MatchResult => y.confVal.conf ≤ x.confVal.conf)
      ((localCandidates q storage).mergeSort confGe) :=
    hs.imp (fun h => (confGe_iff _ _).mp h)
  exact List.Pairwise.sublist (List.take_sublist _ _) hs2

theorem localRecognize_length_le (q : List ℚ) (storage : Storage) (k : ℕ) :
    (localRecognize q storage k).length ≤ k := by
  simp only [localRecognize]
  rw [List.length_take]
  exact min_le_left _ _

/-! ### Helper lemmas about storage and state updates -/

theorem saveLocal_index (s : SysState) (b : Bool) : (saveLocal s b).index = s.index := by
  unfold saveLocal
  split <;> rfl

theorem saveLocal_local_storage (s : SysState) (b : Bool) :
    (saveLocal s b).local_storage = s.local_storage := by
  unfold saveLocal
  split <;> rfl

theorem extract_pil_not_empty (px : List Pixel) :
    (extract_image_features_pil px).isEmpty = false := by
  cases h : extract_image_features_pil px with
  | nil =>
    have hl := length_extract_pil px
    rw [h] at hl
    simp at hl
  | cons a t => simp

theorem dotL_self (v : List ℚ) : dotL v v = sqL v := by
  induction v with
  | nil => simp [dotL, sqL]
  | cons a t ih => simp [dotL, sqL, ih]

theorem dictGet_dictSet (m : Storage) (k : String) (v : StudentData) :
    dictGet (dictSet m k v) k = some v := by
  by_cases h : m.any (fun p => p.1 == k)
  · rw [dictSet, if_pos h]
    induction m with
    | nil => simp at h
    | cons p t ih =>
      by_cases hp : p.1 == k
      · simp [dictGet, List.find?, hp]
      · have ht : t.any (fun p => p.1 == k) = true := by
          rcases List.any_eq_true.mp h with ⟨x, hx, hxk⟩
          rcases List.mem_cons.mp hx with rfl | hxt
          · exact absurd hxk hp
          · exact List.any_eq_true.mpr ⟨x, hxt, hxk⟩
        simpa [dictGet, List.find?, hp] using ih ht
  · rw [dictSet, if_neg h]
    have hnone : (m.find? (fun p => p.1 == k)) = none :=
      List.find?_eq_none.mpr (fun x hx => by
        have := List.any_eq_false.mp (Bool.of_not_eq_true h) x hx
        simpa using this)
    simp [dictGet, List.find?_append, hnone, List.find?]

theorem sqL_replicate_zero (n : ℕ) : sqL (List.replicate n (0 : ℚ)) = 0 := by
  induction n with
  | zero => simp [sqL]
  | succ k ih => simp [List.replicate_succ, sqL, ih]

/-- Evaluation of `recognize_student` on a decoded image: the query vector
is never empty (it has length 128), so the result is the remote list when
the handle is live and the query succeeds, the local fallback otherwise. -/
theorem recognize_some_eq (s : SysState) (px : List Pixel) (top_k : ℕ)
    (rq : RemoteQueryResult) :
    recognize_student s (some px) top_k rq =
      (if s.index then
        match rq with
        | .ok rms =>
          (rms.map (fun t => ⟨t.1, t.2.1, ConfVal.remote t.2.2, "pinecone"⟩), s)
        | .err => (localRecognize (extract_image_features_pil px) s.local_storage top_k, s)
      else (localRecognize (extract_image_features_pil px) s.local_storage top_k, s)) := by
  have h1 : recognize_student s (some px) top_k rq =
      (if (extract_image_features_pil px).isEmpty then ([], s)
       else if s.index then
        match rq with
        | .ok rms =>
          (rms.map (fun t => ⟨t.1, t.2.1, ConfVal.remote t.2.2, "pinecone"⟩), s)
        | .err => (localRecognize (extract_image_features_pil px) s.local_storage top_k, s)
      else (localRecognize (extract_image_features_pil px) s.local_storage top_k, s)) := rfl
  rw [h1, extract_pil_not_empty]
  rfl

/-- `recognize_student` threads the state through unchanged. -/
theorem recognize_state_eq (s : SysState) (img : Option (List Pixel)) (top_k : ℕ)
    (rq : RemoteQueryResult) : (recognize_student s img top_k rq).2 = s := by
  rcases img with _ | px
  · rfl
  · rw [recognize_some_eq]
    split
    · cases rq <;> rfl
    · rfl

/-- `get_system_stats` threads the state through unchanged. -/
theorem stats_state_eq (s : SysState) (rn : Option ℕ) : (get_system_stats s rn).2 = s := by
  unfold get_system_stats
  split
  · cases rn <;> rfl
  · rfl

/-- `enroll_student` never changes the backend handle `self.index`. -/
theorem enroll_index_eq (s : SysState) (roll name : String)
    (folder : Option (List ImageFile)) (now : String) (env : EnrollEnv) :
    (enroll_student s roll name folder now env).2.index = s.index := by
  rcases folder with _ | files
  · rfl
  · obtain ⟨up, so⟩ := env
    by_cases h1 : (goodImages files).length < 1
    · simp [enroll_student, h1]
    · by_cases h2 : (collectFeatures files).isEmpty = true
      · simp [enroll_student, h1, h2]
      · by_cases h3 : s.index = true
        · cases up
          · simp [enroll_student, h1, h2, h3]
          · simp [enroll_student, h1, h2, h3, saveLocal_index]
        · simp [enroll_student, h1, h2, h3, saveLocal_index]

/-- `delete_student` never changes the backend handle `self.index`. -/
theorem delete_index_eq (s : SysState) (roll : String) (so : Bool) :
    (delete_student s roll so).2.index = s.index := by
  unfold delete_student
  split
  · rw [saveLocal_index]
  · rfl

/-! ### Claim theorems -/

/-- C4: on both extraction paths (the PIL pixel-statistics path and the
degraded byte/digest path) the produced feature vector has length exactly
128, by zero-padding or truncation. -/
theorem extractor_always_length_128 :
    (∀ pixels : List Pixel, (extract_image_features_pil pixels).length = 128) ∧
    (∀ content digest : List ℕ, (extract_image_features_nopil content digest).length = 128) :=
  ⟨length_extract_pil, length_extract_nopil⟩

/-- C7: the local fallback result of `recognize_student` is sorted by
confidence in descending order and contains at most `top_k` entries, for
every query vector, stored map and `top_k`. -/
theorem local_fallback_sorted_and_truncated (q : List ℚ) (storage : Storage) (top_k : ℕ) :
    List.Sorted (fun x y : MatchResult => y.confVal.conf ≤ x.confVal.conf)
      (localRecognize q storage top_k) ∧
    (localRecognize q storage top_k).length ≤ top_k :=
  ⟨localRecognize_sorted q storage top_k, localRecognize_length_le q storage top_k⟩

/-- C10: `recognize_student` and `get_system_stats` never modify the state:
the in-memory storage map, the backend handle and the on-disk document are
all returned unchanged. -/
theorem recognize_and_stats_pure (s : SysState) (img : Option (List Pixel)) (top_k : ℕ)
    (rq : RemoteQueryResult) (rn : Option ℕ) :
    (recognize_student s img top_k rq).2 = s ∧ (get_system_stats s rn).2 = s :=
  ⟨recognize_state_eq s img top_k rq, stats_state_eq s rn⟩

/-- C2 (amended): the backend handle is REMOTE exactly when Pinecone is
importable, both credentials are supplied, and setup finds the configured
index; after initialization no operation ever changes the handle — in
particular a remote write/query exception makes only the current call fall
back to Local, and the next call attempts Remote again. -/
theorem backend_handle_fixed_after_init :
    (∀ pa kp ep setup disk, (initState pa kp ep setup disk).index = true ↔
      (pa = true ∧ kp = true ∧ ep = true ∧ setup = SetupOutcome.ok)) ∧
    (∀ s roll name folder now env,
      (enroll_student s roll name folder now env).2.index = s.index) ∧
    (∀ s img top_k rq, (recognize_student s img top_k rq).2.index = s.index) ∧
    (∀ s rn, (get_system_stats s rn).2.index = s.index) ∧
    (∀ s roll so, (delete_student s roll so).2.index = s.index) := by
  refine ⟨?_, enroll_index_eq, ?_, ?_, delete_index_eq⟩
  · intro pa kp ep setup disk
    cases setup <;> simp [initState, and_assoc]
  · intro s img top_k rq
    rw [recognize_state_eq]
  · intro s rn
    rw [stats_state_eq]

/-- C2 (counterexample): a remote write exception during enrollment does
not move the system to the LOCAL state — the handle stays REMOTE and the
very next recognition call uses the Pinecone backend again. -/
theorem backend_downgrade_counterexample :
    ((enroll_student ⟨true, [], none⟩ "X" "Nina"
        (some [⟨".jpg", some (List.replicate 4096 (0, 0, 0))⟩]) "t0"
        ⟨RemoteWriteResult.err, true⟩).2.index = true) ∧
    ((recognize_student
        (enroll_student ⟨true, [], none⟩ "X" "Nina"
          (some [⟨".jpg", some (List.replicate 4096 (0, 0, 0))⟩]) "t0"
          ⟨RemoteWriteResult.err, true⟩).2
        (some (List.replicate 4096 (0, 0, 0))) 3
        (RemoteQueryResult.ok [("Y", "Mia", 1)])).1 =
      [⟨"Y", "Mia", ConfVal.remote 1, "pinecone"⟩]) := by
  constructor
  · rw [enroll_index_eq]
  · rw [recognize_some_eq, if_pos (by rw [enroll_index_eq])]
    rfl

/-- C1 (amended): in the local fallback, a zero-norm query vector yields an
empty result, and every reported entry arises from a stored record whose
squared norm is positive (together with a positive-norm query), so the
similarity quotient is only ever formed with positive norms and a zero-norm
candidate is omitted from the result list rather than reported. -/
theorem zero_norm_candidates_omitted (q : List ℚ) (storage : Storage) (top_k : ℕ) :
    (sqL q = 0 → localRecognize q storage top_k = []) ∧
    (∀ m ∈ localRecognize q storage top_k,
      0 < sqL q ∧ ∃ p ∈ storage, 0 < sqL p.2.features ∧ m = localEntry q p.2) := by
  constructor
  · intro hq
    have hnil : localCandidates q storage = [] := by
      refine List.filterMap_eq_nil_iff.mpr (fun p hp => ?_)
      rw [if_neg]
      rintro ⟨h1, h2⟩
      rw [hq] at h1
      exact lt_irrefl 0 h1
    rw [localRecognize, hnil, List.mergeSort_nil, List.take_nil]
  · intro m hm
    exact mem_localRecognize hm

/-- C1 (witness): instantiating the amended theorem — a zero-norm query
produces the empty result, and a concrete reported entry arises from a
positive-norm stored record. -/
theorem zero_norm_candidates_omitted_witness :
    (sqL [(0 : ℚ)] = 0 ∧
      localRecognize [(0 : ℚ)] [("Z", ⟨"Z", "Zoe", [(1 : ℚ)], "t0", 1⟩)] 3 = []) ∧
    (localEntry [(1 : ℚ)] ⟨"Z", "Zoe", [(1 : ℚ)], "t0", 1⟩ ∈
        localRecognize [(1 : ℚ)] [("Z", ⟨"Z", "Zoe", [(1 : ℚ)], "t0", 1⟩)] 3 ∧
      (0 < sqL [(1 : ℚ)] ∧ ∃ p ∈ [("Z", (⟨"Z", "Zoe", [(1 : ℚ)], "t0", 1⟩ : StudentData))],
        0 < sqL p.2.features ∧
          localEntry [(1 : ℚ)] ⟨"Z", "Zoe", [(1 : ℚ)], "t0", 1⟩ = localEntry [(1 : ℚ)] p.2)) := by
  have hq0 : sqL [(0 : ℚ)] = 0 := by norm_num [sqL]
  have hmem : localEntry [(1 : ℚ)] ⟨"Z", "Zoe", [(1 : ℚ)], "t0", 1⟩ ∈
      localRecognize [(1 : ℚ)] [("Z", ⟨"Z", "Zoe", [(1 : ℚ)], "t0", 1⟩)] 3 := by
    rw [localRecognize, localCandidates, List.filterMap_cons, if_pos (by norm_num [sqL])]
    simp [List.mergeSort_singleton]
  exact ⟨⟨hq0, (zero_norm_candidates_omitted [(0 : ℚ)] _ 3).1 hq0⟩,
    ⟨hmem, (zero_norm_candidates_omitted [(1 : ℚ)] _ 3).2 _ hmem⟩⟩

/-- C1 (counterexample): a stored record with a zero-norm feature vector is
not reported at all — the result list is empty, not an entry with score 0
and `is_match = false` as the claim states. -/
theorem zero_norm_counterexample :
    sqL (List.replicate 128 (0 : ℚ)) = 0 ∧
    localRecognize [(1 : ℚ)] [("Z", ⟨"Z", "Zoe", List.replicate 128 0, "t0", 1⟩)] 3 = [] := by
  refine ⟨sqL_replicate_zero 128, ?_⟩
  rw [localRecognize, localCandidates, List.filterMap_cons,
    if_neg (by rw [sqL_replicate_zero]; rintro ⟨h1, h2⟩; exact lt_irrefl 0 h2)]
  simp [List.mergeSort_nil]

/-! ### Enrollment evaluation helpers -/

theorem goodImages_nil_of_collect {files : List ImageFile}
    (h : goodImages files = []) : collectFeatures files = [] := by
  rw [collectFeatures, h, List.filterMap_nil]

theorem extract_pil_ne_nil (px : List Pixel) : extract_image_features_pil px ≠ [] := by
  intro h
  have hl := length_extract_pil px
  rw [h] at hl
  simp at hl

theorem collectFeatures_single (f : ImageFile) (img : List Pixel)
    (hsuf : imageExtensions.contains (lowerStr f.suffix) = true)
    (hdec : f.decoded = some img) :
    collectFeatures [f] = [extract_image_features_pil img] := by
  have hmem : lowerStr f.suffix ∈ imageExtensions := by simpa using hsuf
  simp [collectFeatures, goodImages, hmem, extractOf, hdec, extract_pil_ne_nil]

theorem goodImages_single (f : ImageFile)
    (hsuf : imageExtensions.contains (lowerStr f.suffix) = true) :
    goodImages [f] = [f] := by
  have hmem : lowerStr f.suffix ∈ imageExtensions := by simpa using hsuf
  simp [goodImages, hmem]

theorem averageFeatures_single (v : List ℚ) : averageFeatures [v] = v := by
  simp [averageFeatures]

theorem dictSet_nil (k : String) (v : StudentData) : dictSet [] k v = [(k, v)] := by
  simp [dictSet]

theorem dictSet_single_same (k : String) (v v' : StudentData) :
    dictSet [(k, v')] k v = [(k, v)] := by
  simp [dictSet]

theorem dictGet_single (k : String) (v : StudentData) :
    dictGet [(k, v)] k = some v := by
  simp [dictGet, List.find?]

/-- The success path of `enroll_student` on the local backend: the record is
written into the dict and the disk is refreshed when the write succeeds. -/
theorem enroll_local_success (s : SysState) (roll name : String)
    (files : List ImageFile) (now : String) (env : EnrollEnv)
    (hidx : s.index = false)
    (hfeat : collectFeatures files ≠ []) :
    enroll_student s roll name (some files) now env =
      (true, saveLocal
        { s with local_storage := dictSet s.local_storage roll (enrollData roll name files now) }
        env.saveOk) := by
  have h1 : ¬ (goodImages files).length < 1 := by
    intro hlt
    have : goodImages files = [] := by
      cases h : goodImages files with
      | nil => rfl
      | cons a t => rw [h] at hlt; simp at hlt
    exact hfeat (goodImages_nil_of_collect this)
  have h2 : (collectFeatures files).isEmpty = false := by
    cases h : collectFeatures files with
    | nil => exact absurd h hfeat
    | cons a t => simp
  obtain ⟨up, so⟩ := env
  simp [enroll_student, h1, h2, hidx]

/-- The remote-write-failure path of `enroll_student`: the record falls back
to the local dict. -/
theorem enroll_remote_err (s : SysState) (roll name : String)
    (files : List ImageFile) (now : String) (saveOk : Bool)
    (hidx : s.index = true)
    (hfeat : collectFeatures files ≠ []) :
    enroll_student s roll name (some files) now ⟨RemoteWriteResult.err, saveOk⟩ =
      (true, saveLocal
        { s with local_storage := dictSet s.local_storage roll (enrollData roll name files now) }
        saveOk) := by
  have h1 : ¬ (goodImages files).length < 1 := by
    intro hlt
    have : goodImages files = [] := by
      cases h : goodImages files with
      | nil => rfl
      | cons a t => rw [h] at hlt; simp at hlt
    exact hfeat (goodImages_nil_of_collect this)
  have h2 : (collectFeatures files).isEmpty = false := by
    cases h : collectFeatures files with
    | nil => exact absurd h hfeat
    | cons a t => simp
  simp [enroll_student, h1, h2, hidx]

/-- C5 (amended): `enroll_student` returns `False` exactly when the folder
is missing, no file passes the extension filter, or no feature vector was
produced; in every other case it returns `True` — in particular the
returned boolean is independent of whether the persistent store was
writable, since `_save_local_storage` swallows its own exception. -/
theorem enroll_failure_conditions (s : SysState) (roll name : String)
    (folder : Option (List ImageFile)) (now : String) (env : EnrollEnv) :
    (enroll_student s roll name folder now env).1 = false ↔
      (folder = none ∨ ∃ files, folder = some files ∧
        (goodImages files = [] ∨ collectFeatures files = [])) := by
  rcases folder with _ | files
  · simp [enroll_student]
  · obtain ⟨up, so⟩ := env
    by_cases h1 : (goodImages files).length < 1
    · have hnil : goodImages files = [] := by
        cases h : goodImages files with
        | nil => rfl
        | cons a t => rw [h] at h1; simp at h1
      simp [enroll_student, h1, hnil]
    · have hne : goodImages files ≠ [] := by
        intro h
        rw [h] at h1
        simp at h1
      by_cases h2 : (collectFeatures files).isEmpty = true
      · have : collectFeatures files = [] := List.isEmpty_iff.mp h2
        simp [enroll_student, h1, h2, this, hne]
      · have hcne : collectFeatures files ≠ [] := by
          intro h
          exact h2 (List.isEmpty_iff.mpr h)
        by_cases h3 : s.index = true
        · cases up <;> simp [enroll_student, h1, h2, h3, hne, hcne]
        · simp [enroll_student, h1, h2, h3, hne, hcne]

/-- C5 (counterexample): with one valid image and an unwritable persistent
store (`saveOk = false`), `enroll_student` still returns `True`, and nothing
reached the disk — the claim's "returns false when the persistent store is
unwritable" does not hold of the code. -/
theorem enroll_unwritable_store_counterexample :
    (enroll_student ⟨false, [], none⟩ "R" "Nina"
        (some [⟨".jpg", some (List.replicate 4096 (0, 0, 0))⟩]) "t0"
        ⟨RemoteWriteResult.ok, false⟩).1 = true ∧
    (enroll_student ⟨false, [], none⟩ "R" "Nina"
        (some [⟨".jpg", some (List.replicate 4096 (0, 0, 0))⟩]) "t0"
        ⟨RemoteWriteResult.ok, false⟩).2.disk = none := by
  have hsuf : imageExtensions.contains (lowerStr ".jpg") = true := by decide
  have hcf := collectFeatures_single ⟨".jpg", some (List.replicate 4096 (0, 0, 0))⟩
    (List.replicate 4096 (0, 0, 0)) hsuf rfl
  have h := enroll_local_success ⟨false, [], none⟩ "R" "Nina"
    [⟨".jpg", some (List.replicate 4096 (0, 0, 0))⟩] "t0" ⟨RemoteWriteResult.ok, false⟩
    rfl (by rw [hcf]; exact List.cons_ne_nil _ _)
  rw [h]
  exact ⟨rfl, rfl⟩

/-- C6: when the backend is REMOTE and the Pinecone upsert raises, the very
same `student_data` record is written to the in-memory local store (and to
disk when the disk write succeeds), so it is retrievable from the Local
backend afterward — no data is lost. -/
theorem remote_write_failure_persists_locally (s : SysState) (roll name : String)
    (files : List ImageFile) (now : String) (saveOk : Bool)
    (hidx : s.index = true)
    (hfeat : collectFeatures files ≠ []) :
    (enroll_student s roll name (some files) now ⟨RemoteWriteResult.err, saveOk⟩).1 = true ∧
    dictGet (enroll_student s roll name (some files) now
        ⟨RemoteWriteResult.err, saveOk⟩).2.local_storage roll =
      some (enrollData roll name files now) ∧
    (saveOk = true →
      (enroll_student s roll name (some files) now ⟨RemoteWriteResult.err, saveOk⟩).2.disk =
        some (dictSet s.local_storage roll (enrollData roll name files now))) := by
  rw [enroll_remote_err s roll name files now saveOk hidx hfeat]
  refine ⟨rfl, ?_, ?_⟩
  · rw [saveLocal_local_storage]
    exact dictGet_dictSet s.local_storage roll (enrollData roll name files now)
  · intro hso
    rw [hso, saveLocal]
    simp

/-- C6 (witness): a concrete remote-write failure on a one-image enrollment
leaves the record retrievable from the local store. -/
theorem remote_write_failure_persists_locally_witness :
    ((⟨true, [], none⟩ : SysState).index = true ∧
      collectFeatures [⟨".jpg", some (List.replicate 4096 (0, 0, 0))⟩] ≠ []) ∧
    ((enroll_student ⟨true, [], none⟩ "R" "Nina"
        (some [⟨".jpg", some (List.replicate 4096 (0, 0, 0))⟩]) "t0"
        ⟨RemoteWriteResult.err, true⟩).1 = true ∧
      dictGet (enroll_student ⟨true, [], none⟩ "R" "Nina"
          (some [⟨".jpg", some (List.replicate 4096 (0, 0, 0))⟩]) "t0"
          ⟨RemoteWriteResult.err, true⟩).2.local_storage "R" =
        some (enrollData "R" "Nina" [⟨".jpg", some (List.replicate 4096 (0, 0, 0))⟩] "t0") ∧
      (true = true →
        (enroll_student ⟨true, [], none⟩ "R" "Nina"
            (some [⟨".jpg", some (List.replicate 4096 (0, 0, 0))⟩]) "t0"
            ⟨RemoteWriteResult.err, true⟩).2.disk =
          some (dictSet ([] : Storage) "R"
            (enrollData "R" "Nina" [⟨".jpg", some (List.replicate 4096 (0, 0, 0))⟩] "t0")))) := by
  have hsuf : imageExtensions.contains (lowerStr ".jpg") = true := by decide
  have hcf := collectFeatures_single ⟨".jpg", some (List.replicate 4096 (0, 0, 0))⟩
    (List.replicate 4096 (0, 0, 0)) hsuf rfl
  have hfeat : collectFeatures [(⟨".jpg", some (List.replicate 4096 (0, 0, 0))⟩ : ImageFile)] ≠ [] := by
    rw [hcf]
    exact List.cons_ne_nil _ _
  exact ⟨⟨rfl, hfeat⟩,
    remote_write_failure_persists_locally ⟨true, [], none⟩ "R" "Nina"
      [⟨".jpg", some (List.replicate 4096 (0, 0, 0))⟩] "t0" true rfl hfeat⟩

/-- Every `enroll_student` call either leaves the local dict unchanged or
replaces the binding of `roll` by the freshly assembled record. -/
theorem enroll_storage_cases (s : SysState) (roll name : String)
    (folder : Option (List ImageFile)) (now : String) (env : EnrollEnv) :
    (enroll_student s roll name folder now env).2.local_storage = s.local_storage ∨
    ∃ files, folder = some files ∧
      (enroll_student s roll name folder now env).2.local_storage =
        dictSet s.local_storage roll (enrollData roll name files now) := by
  rcases folder with _ | files
  · exact Or.inl rfl
  · obtain ⟨up, so⟩ := env
    by_cases h1 : (goodImages files).length < 1
    · left
      simp [enroll_student, h1]
    · by_cases h2 : (collectFeatures files).isEmpty = true
      · left
        simp [enroll_student, h1, h2]
      · by_cases h3 : s.index = true
        · cases up
          · left
            simp [enroll_student, h1, h2, h3]
          · right
            exact ⟨files, rfl, by simp [enroll_student, h1, h2, h3, saveLocal_local_storage]⟩
        · right
          exact ⟨files, rfl, by simp [enroll_student, h1, h2, h3, saveLocal_local_storage]⟩

/-- C8: with the local backend, enrolling `roll` with N images and then
re-enrolling with a single image overwrites (does not merge) the stored
record: the binding afterward is exactly the single-image record, and any
subsequent local recognition produces its entry from the single-image
vector, not the earlier N-image average. -/
theorem reenrollment_overwrites (s : SysState) (roll nameA nameB : String)
    (filesN : List ImageFile) (f1 : ImageFile) (img1 : List Pixel)
    (now1 now2 : String) (env1 env2 : EnrollEnv)
    (hidx : s.index = false) (hempty : s.local_storage = [])
    (hsuf : imageExtensions.contains (lowerStr f1.suffix) = true)
    (hdec : f1.decoded = some img1) :
    dictGet (enroll_student (enroll_student s roll nameA (some filesN) now1 env1).2
        roll nameB (some [f1]) now2 env2).2.local_storage roll =
      some ⟨roll, nameB, extract_image_features_pil img1, now2, 1⟩ ∧
    (∀ q top_k, 1 ≤ top_k → 0 < sqL q → 0 < sqL (extract_image_features_pil img1) →
      localRecognize q (enroll_student (enroll_student s roll nameA (some filesN) now1 env1).2
          roll nameB (some [f1]) now2 env2).2.local_storage top_k =
        [localEntry q ⟨roll, nameB, extract_image_features_pil img1, now2, 1⟩]) := by
  have hs1idx : (enroll_student s roll nameA (some filesN) now1 env1).2.index = false := by
    rw [enroll_index_eq, hidx]
  have hcf := collectFeatures_single f1 img1 hsuf hdec
  have hdata : enrollData roll nameB [f1] now2 =
      ⟨roll, nameB, extract_image_features_pil img1, now2, 1⟩ := by
    rw [enrollData, hcf, averageFeatures_single]
    rfl
  have h2 := enroll_local_success (enroll_student s roll nameA (some filesN) now1 env1).2
    roll nameB [f1] now2 env2 hs1idx (by rw [hcf]; exact List.cons_ne_nil _ _)
  have hstore : (enroll_student (enroll_student s roll nameA (some filesN) now1 env1).2
      roll nameB (some [f1]) now2 env2).2.local_storage =
      [(roll, (⟨roll, nameB, extract_image_features_pil img1, now2, 1⟩ : StudentData))] := by
    rw [h2, saveLocal_local_storage]
    rcases enroll_storage_cases s roll nameA (some filesN) now1 env1 with hc | ⟨fs, _, hc⟩
    · rw [hc, hempty, hdata, dictSet_nil]
    · rw [hc, hempty, dictSet_nil, hdata, dictSet_single_same]
  constructor
  · rw [hstore]
    exact dictGet_single _ _
  · intro q top_k hk hq hpos
    rw [hstore]
    simp only [localRecognize, localCandidates, List.filterMap_cons, List.filterMap_nil]
    rw [if_pos (show 0 < sqL q ∧ 0 < sqL (⟨roll, nameB, extract_image_features_pil img1,
      now2, 1⟩ : StudentData).features from ⟨hq, hpos⟩)]
    rw [List.mergeSort_singleton]
    exact List.take_of_length_le (by simpa using hk)

/-- C8 (witness): a concrete two-image enrollment followed by a one-image
re-enrollment for the same identifier leaves exactly the one-image record. -/
theorem reenrollment_overwrites_witness :
    ((⟨false, [], none⟩ : SysState).index = false ∧
      (⟨false, [], none⟩ : SysState).local_storage = [] ∧
      imageExtensions.contains (lowerStr (".jpg" : String)) = true ∧
      (⟨".jpg", some [((9, 9, 9) : Pixel)]⟩ : ImageFile).decoded = some [((9, 9, 9) : Pixel)]) ∧
    (dictGet (enroll_student (enroll_student ⟨false, [], none⟩ "X" "Ann"
        (some [⟨".jpg", some [((0, 0, 0) : Pixel)]⟩, ⟨".jpg", some [((255, 255, 255) : Pixel)]⟩])
        "t1" ⟨RemoteWriteResult.ok, true⟩).2
        "X" "Ben" (some [⟨".jpg", some [((9, 9, 9) : Pixel)]⟩]) "t2"
        ⟨RemoteWriteResult.ok, true⟩).2.local_storage "X" =
      some ⟨"X", "Ben", extract_image_features_pil [((9, 9, 9) : Pixel)], "t2", 1⟩ ∧
    (∀ q top_k, 1 ≤ top_k → 0 < sqL q →
      0 < sqL (extract_image_features_pil [((9, 9, 9) : Pixel)]) →
      localRecognize q (enroll_student (enroll_student ⟨false, [], none⟩ "X" "Ann"
          (some [⟨".jpg", some [((0, 0, 0) : Pixel)]⟩, ⟨".jpg", some [((255, 255, 255) : Pixel)]⟩])
          "t1" ⟨RemoteWriteResult.ok, true⟩).2
          "X" "Ben" (some [⟨".jpg", some [((9, 9, 9) : Pixel)]⟩]) "t2"
          ⟨RemoteWriteResult.ok, true⟩).2.local_storage top_k =
        [localEntry q ⟨"X", "Ben", extract_image_features_pil [((9, 9, 9) : Pixel)], "t2", 1⟩])) :=
  ⟨⟨rfl, rfl, by decide, rfl⟩,
    reenrollment_overwrites ⟨false, [], none⟩ "X" "Ann" "Ben"
      [⟨".jpg", some [((0, 0, 0) : Pixel)]⟩, ⟨".jpg", some [((255, 255, 255) : Pixel)]⟩]
      ⟨".jpg", some [((9, 9, 9) : Pixel)]⟩ [((9, 9, 9) : Pixel)] "t1" "t2"
      ⟨RemoteWriteResult.ok, true⟩ ⟨RemoteWriteResult.ok, true⟩
      rfl rfl (by decide) rfl⟩

/-- C9: in the local fallback, when the query vector and the candidate's
stored vector both have only nonnegative entries (and the candidate was
reported, so both norms are positive), the reported confidence lies in the
closed interval [0, 100], by Cauchy–Schwarz. -/
theorem local_confidence_in_range (q : List ℚ) (storage : Storage) (top_k : ℕ)
    (m : MatchResult) (p : String × StudentData)
    (hm : m ∈ localRecognize q storage top_k) (_hp : p ∈ storage)
    (hq : ∀ x ∈ q, 0 ≤ x) (hf : ∀ x ∈ p.2.features, 0 ≤ x)
    (hme : m = localEntry q p.2) :
    0 ≤ m.confVal.conf ∧ m.confVal.conf ≤ 100 := by
  obtain ⟨hsq, p', hp', hpos', hme'⟩ := mem_localRecognize hm
  have hsbeq : sqL p.2.features = sqL p'.2.features := by
    have h := congrArg MatchResult.confVal (hme.symm.trans hme')
    simp only [localEntry, ConfVal.cosine.injEq] at h
    exact h.2.2
  have hsb : 0 < sqL p.2.features := hsbeq ▸ hpos'
  rw [hme]
  simp only [localEntry, ConfVal.conf]
  have hd : 0 ≤ dotL q p.2.features := dotL_nonneg hq hf
  have hdR : (0 : ℝ) ≤ ((dotL q p.2.features : ℚ) : ℝ) := by exact_mod_cast hd
  have hsaR : (0 : ℝ) < ((sqL q : ℚ) : ℝ) := by exact_mod_cast hsq
  have hsbR : (0 : ℝ) < ((sqL p.2.features : ℚ) : ℝ) := by exact_mod_cast hsb
  constructor
  · positivity
  · have hcs : ((dotL q p.2.features : ℚ) : ℝ) ^ 2 ≤
        ((sqL q : ℚ) : ℝ) * ((sqL p.2.features : ℚ) : ℝ) := by
      exact_mod_cast dotL_sq_le q p.2.features
    have hprod : (0 : ℝ) < ((sqL q : ℚ) : ℝ) * ((sqL p.2.features : ℚ) : ℝ) :=
      mul_pos hsaR hsbR
    have hle : ((dotL q p.2.features : ℚ) : ℝ) ≤
        Real.sqrt (((sqL q : ℚ) : ℝ) * ((sqL p.2.features : ℚ) : ℝ)) :=
      (Real.le_sqrt hdR (le_of_lt hprod)).mpr hcs
    have hsm := Real.sqrt_mul (le_of_lt hsaR) ((sqL p.2.features : ℚ) : ℝ)
    have hdenpos : (0 : ℝ) < Real.sqrt ((sqL q : ℚ) : ℝ) *
        Real.sqrt ((sqL p.2.features : ℚ) : ℝ) :=
      mul_pos (Real.sqrt_pos.mpr hsaR) (Real.sqrt_pos.mpr hsbR)
    have hone : ((dotL q p.2.features : ℚ) : ℝ) /
        (Real.sqrt ((sqL q : ℚ) : ℝ) * Real.sqrt ((sqL p.2.features : ℚ) : ℝ)) ≤ 1 :=
      (div_le_one hdenpos).mpr (hsm ▸ hle)
    nlinarith

/-- C9 (witness): a concrete reported candidate with nonnegative query and
stored vectors has confidence within [0, 100]. -/
theorem local_confidence_in_range_witness :
    (localEntry [(1 : ℚ)] ⟨"Z", "Zoe", [(1 : ℚ)], "t0", 1⟩ ∈
        localRecognize [(1 : ℚ)] [("Z", ⟨"Z", "Zoe", [(1 : ℚ)], "t0", 1⟩)] 3 ∧
      ("Z", (⟨"Z", "Zoe", [(1 : ℚ)], "t0", 1⟩ : StudentData)) ∈
        [("Z", (⟨"Z", "Zoe", [(1 : ℚ)], "t0", 1⟩ : StudentData))] ∧
      (∀ x ∈ [(1 : ℚ)], 0 ≤ x)) ∧
    (0 ≤ (localEntry [(1 : ℚ)] ⟨"Z", "Zoe", [(1 : ℚ)], "t0", 1⟩).confVal.conf ∧
      (localEntry [(1 : ℚ)] ⟨"Z", "Zoe", [(1 : ℚ)], "t0", 1⟩).confVal.conf ≤ 100) := by
  have hmem : localEntry [(1 : ℚ)] ⟨"Z", "Zoe", [(1 : ℚ)], "t0", 1⟩ ∈
      localRecognize [(1 : ℚ)] [("Z", ⟨"Z", "Zoe", [(1 : ℚ)], "t0", 1⟩)] 3 := by
    rw [localRecognize, localCandidates, List.filterMap_cons, if_pos (by norm_num [sqL])]
    simp [List.mergeSort_singleton]
  have hq1 : ∀ x ∈ [(1 : ℚ)], 0 ≤ x := by
    intro x hx
    simp at hx
    rw [hx]
    norm_num
  exact ⟨⟨hmem, by simp, hq1⟩,
    local_confidence_in_range [(1 : ℚ)] [("Z", ⟨"Z", "Zoe", [(1 : ℚ)], "t0", 1⟩)] 3
      (localEntry [(1 : ℚ)] ⟨"Z", "Zoe", [(1 : ℚ)], "t0", 1⟩)
      ("Z", ⟨"Z", "Zoe", [(1 : ℚ)], "t0", 1⟩) hmem (by simp) hq1 hq1 rfl⟩

/-! ### Evaluation of the extractor on constant rasters -/

theorem foldl_max_replicate (n c : ℕ) : (List.replicate n c).foldl max c = c := by
  induction n with
  | zero => rfl
  | succ k ih =>
    rw [List.replicate_succ, List.foldl_cons, max_self]
    exact ih

theorem foldl_min_replicate (n c : ℕ) : (List.replicate n c).foldl min c = c := by
  induction n with
  | zero => rfl
  | succ k ih =>
    rw [List.replicate_succ, List.foldl_cons, min_self]
    exact ih

theorem listMax_replicate (n c : ℕ) : listMax (List.replicate (n + 1) c) = c := by
  rw [List.replicate_succ]
  exact foldl_max_replicate n c

theorem listMin_replicate (n c : ℕ) : listMin (List.replicate (n + 1) c) = c := by
  rw [List.replicate_succ]
  exact foldl_min_replicate n c

theorem channelStats_replicate (c : ℕ) :
    channelStats (List.replicate 4096 c) =
      [(c : ℚ), (c : ℚ), (c : ℚ), if 128 < c then 1 else 0] := by
  unfold channelStats
  rw [List.map_replicate, List.sum_replicate, List.length_replicate,
    List.filter_replicate]
  have h2 : listMax (List.replicate 4096 c) = c := listMax_replicate 4095 c
  have h3 : listMin (List.replicate 4096 c) = c := listMin_replicate 4095 c
  rw [h2, h3]
  have h1 : (4096 : ℕ) • (c : ℚ) / ((4096 : ℕ) : ℚ) = (c : ℚ) := by
    rw [nsmul_eq_mul]
    norm_num
  rw [h1]
  by_cases hc : 128 < c
  · rw [if_pos (by simpa using hc), if_pos hc, List.length_replicate]
    norm_num
  · rw [if_neg (by simpa using hc), if_neg hc]
    norm_num

theorem sum_hist_select (k : ℕ) (hk : k < 8) :
    ((List.range 8).map (fun j => if (k == j) then (4096 : ℕ) else 0)).sum = 4096 := by
  interval_cases k <;> decide

theorem histBins_replicate (c : ℕ) :
    histBins (List.replicate 4096 c) =
      (List.range 8).map (fun j => if (binIdx c == j) then (1 : ℚ) else 0) := by
  unfold histBins
  simp only [List.countP_replicate]
  have hk : binIdx c < 8 := by
    unfold binIdx
    omega
  rw [sum_hist_select (binIdx c) hk, if_pos (by norm_num), List.map_map]
  refine List.map_congr_left (fun j hj => ?_)
  simp only [Function.comp_apply]
  by_cases h : binIdx c = j
  · rw [if_pos (beq_iff_eq.mpr h), if_pos (beq_iff_eq.mpr h)]
    norm_num
  · rw [if_neg (by simp [h]), if_neg (by simp [h])]
    norm_num

theorem edgeCount_replicate (p : Pixel) : edgeCount (List.replicate 4096 p) = 0 := by
  unfold edgeCount
  rw [List.tail_replicate, List.zip_replicate, List.countP_replicate]
  norm_num

theorem filterMap_if_all {α β : Type} (l : List α) (p : α → Prop) [DecidablePred p]
    (f : α → β) (h : ∀ x ∈ l, p x) :
    l.filterMap (fun x => if p x then some (f x) else none) = l.map f := by
  induction l with
  | nil => rfl
  | cons a t ih =>
    rw [List.filterMap_cons, if_pos (h a (by simp)), List.map_cons,
      ih (fun x hx => h x (by simp [hx]))]

theorem flatMap_congr_left {α β : Type} {l : List α} {f g : α → List β}
    (h : ∀ a ∈ l, f a = g a) : l.flatMap f = l.flatMap g := by
  induction l with
  | nil => rfl
  | cons a t ih =>
    rw [List.flatMap_cons, List.flatMap_cons, h a (by simp),
      ih (fun x hx => h x (by simp [hx]))]

theorem flatMap_const_replicate {α β : Type} (l : List α) (m : ℕ) (v : β) :
    l.flatMap (fun _ => List.replicate m v) = List.replicate (l.length * m) v := by
  induction l with
  | nil => simp
  | cons a t ih =>
    rw [List.flatMap_cons, ih, List.length_cons,
      show (t.length + 1) * m = m + t.length * m by ring, List.replicate_add]

theorem getD_replicate (n : ℕ) (a : Pixel) (m : ℕ) (hm : m < n) :
    (List.replicate n a).getD m (0, 0, 0) = a := by
  rw [List.getD_eq_getElem?_getD, List.getElem?_replicate, if_pos hm]
  rfl

theorem quadPixels_replicate (p : Pixel) (qy qx : ℕ)
    (hy : qy + 16 ≤ 64) (hx : qx + 16 ≤ 64) :
    quadPixels (List.replicate 4096 p) qy qx = List.replicate 256 (pixSum p) := by
  unfold quadPixels
  rw [List.length_replicate]
  have h1 : min (qy + 16) 64 - qy = 16 := by omega
  have h2 : min (qx + 16) 64 - qx = 16 := by omega
  rw [h1, h2]
  have inner : ∀ y ∈ List.range' qy 16, (List.range' qx 16).filterMap (fun x =>
      if y * 64 + x < 4096 then
        some (pixSum ((List.replicate 4096 p).getD (y * 64 + x) (0, 0, 0)))
      else none) = List.replicate 16 (pixSum p) := by
    intro y hyy
    obtain ⟨hy1, hy2⟩ := List.mem_range'_1.mp hyy
    have hcond : ∀ x ∈ List.range' qx 16, y * 64 + x < 4096 := by
      intro x hxx
      obtain ⟨hx1, hx2⟩ := List.mem_range'_1.mp hxx
      omega
    rw [filterMap_if_all _ _ _ hcond]
    have hvals : ∀ x ∈ List.range' qx 16,
        pixSum ((List.replicate 4096 p).getD (y * 64 + x) (0, 0, 0)) = pixSum p := by
      intro x hxx
      rw [getD_replicate _ _ _ (hcond x hxx)]
    rw [List.map_congr_left hvals]
    have : (fun _ : ℕ => pixSum p) = Function.const ℕ (pixSum p) := rfl
    rw [this, List.map_const, List.length_range']
  rw [flatMap_congr_left inner, flatMap_const_replicate, List.length_range']

theorem quadFeatures_replicate (p : Pixel) :
    quadFeatures (List.replicate 4096 p) =
      List.replicate 16 (((pixSum p : ℕ) : ℚ) / 765) := by
  unfold quadFeatures
  simp only [List.flatMap_cons, List.flatMap_nil, List.append_nil]
  rw [quadPixels_replicate p 0 0 (by norm_num) (by norm_num),
    quadPixels_replicate p 0 16 (by norm_num) (by norm_num),
    quadPixels_replicate p 0 32 (by norm_num) (by norm_num),
    quadPixels_replicate p 0 48 (by norm_num) (by norm_num),
    quadPixels_replicate p 16 0 (by norm_num) (by norm_num),
    quadPixels_replicate p 16 16 (by norm_num) (by norm_num),
    quadPixels_replicate p 16 32 (by norm_num) (by norm_num),
    quadPixels_replicate p 16 48 (by norm_num) (by norm_num),
    quadPixels_replicate p 32 0 (by norm_num) (by norm_num),
    quadPixels_replicate p 32 16 (by norm_num) (by norm_num),
    quadPixels_replicate p 32 32 (by norm_num) (by norm_num),
    quadPixels_replicate p 32 48 (by norm_num) (by norm_num),
    quadPixels_replicate p 48 0 (by norm_num) (by norm_num),
    quadPixels_replicate p 48 16 (by norm_num) (by norm_num),
    quadPixels_replicate p 48 32 (by norm_num) (by norm_num),
    quadPixels_replicate p 48 48 (by norm_num) (by norm_num)]
  have hne : (List.replicate 256 (pixSum p)).isEmpty = false := by
    rw [show (256 : ℕ) = 255 + 1 from rfl, List.replicate_succ]
    rfl
  simp only [hne, Bool.false_eq_true, if_false]
  simp only [List.map_replicate, List.sum_replicate, List.length_replicate]
  have hval : ((256 : ℕ) • ((pixSum p : ℕ) : ℚ)) / ((256 : ℕ) : ℚ) / 765 =
      ((pixSum p : ℕ) : ℚ) / 765 := by
    rw [nsmul_eq_mul]
    norm_num
  simp only [hval]
  rfl

theorem extract_pil_replicate (p : Pixel) :
    extract_image_features_pil (List.replicate 4096 p) =
      padTo128 (
        ([(p.1 : ℚ), (p.1 : ℚ), (p.1 : ℚ), if 128 < p.1 then 1 else 0] ++
         [(p.2.1 : ℚ), (p.2.1 : ℚ), (p.2.1 : ℚ), if 128 < p.2.1 then 1 else 0] ++
         [(p.2.2 : ℚ), (p.2.2 : ℚ), (p.2.2 : ℚ), if 128 < p.2.2 then 1 else 0]) ++
        ((List.range 8).map (fun j => if (binIdx p.1 == j) then (1 : ℚ) else 0) ++
         (List.range 8).map (fun j => if (binIdx p.2.1 == j) then (1 : ℚ) else 0) ++
         (List.range 8).map (fun j => if (binIdx p.2.2 == j) then (1 : ℚ) else 0)) ++
        [0] ++ List.replicate 16 (((pixSum p : ℕ) : ℚ) / 765)) := by
  unfold extract_image_features_pil
  simp only [List.map_replicate]
  rw [channelStats_replicate, channelStats_replicate, channelStats_replicate]
  rw [histBins_replicate, histBins_replicate, histBins_replicate]
  rw [edgeCount_replicate, quadFeatures_replicate, List.length_replicate]
  norm_num

/-! ### Concrete black/white raster vectors and their arithmetic -/

theorem sqL_append (a b : List ℚ) : sqL (a ++ b) = sqL a + sqL b := by
  induction a with
  | nil => simp [sqL]
  | cons x xs ih => rw [List.cons_append, sqL, sqL, ih]; ring

theorem sqL_replicate (n : ℕ) (c : ℚ) : sqL (List.replicate n c) = n * (c * c) := by
  induction n with
  | zero => simp [sqL]
  | succ k ih =>
    rw [List.replicate_succ, sqL, ih]
    push_cast
    ring

theorem dotL_append (a1 a2 b1 b2 : List ℚ) (h : a1.length = a2.length) :
    dotL (a1 ++ b1) (a2 ++ b2) = dotL a1 a2 + dotL b1 b2 := by
  induction a1 generalizing a2 with
  | nil =>
    have : a2 = [] := by
      cases a2 with
      | nil => rfl
      | cons y ys => simp at h
    rw [this]
    simp [dotL]
  | cons x xs ih =>
    cases a2 with
    | nil => simp at h
    | cons y ys =>
      rw [List.cons_append, List.cons_append, dotL, dotL, ih ys (by simpa using h)]
      ring

theorem dotL_replicate (n : ℕ) (a b : ℚ) :
    dotL (List.replicate n a) (List.replicate n b) = n * (a * b) := by
  induction n with
  | zero => simp [dotL]
  | succ k ih =>
    rw [List.replicate_succ, List.replicate_succ, dotL, ih]
    push_cast
    ring

/-- On two same-length vectors the averaging loop is the pointwise mean. -/
theorem averageFeatures_pair (a b : List ℚ) (h : a.length = b.length) :
    averageFeatures [a, b] = List.zipWith (fun x y => (x + y) / 2) a b := by
  have h0 : averageFeatures [a, b] =
      (List.range a.length).map (fun i =>
        (List.map (fun g => g.getD i 0) [a, b]).sum / (([a, b] : List (List ℚ)).length : ℚ)) :=
    rfl
  rw [h0]
  refine List.ext_getElem (by simp [h]) ?_
  intro i h1 h2
  have hia : i < a.length := by simpa using h1
  have hib : i < b.length := by rw [← h]; exact hia
  simp only [List.getElem_map, List.getElem_range, List.getElem_zipWith,
    List.map_cons, List.map_nil, List.sum_cons, List.sum_nil, List.length_cons,
    List.length_nil]
  rw [List.getD_eq_getElem?_getD, List.getElem?_eq_getElem hia,
    List.getD_eq_getElem?_getD, List.getElem?_eq_getElem hib]
  norm_num

theorem padTo128_of_le {l : List ℚ} (h : l.length ≤ 128) :
    padTo128 l = l ++ List.replicate (128 - l.length) 0 := by
  unfold padTo128
  apply List.take_of_length_le
  simp
  omega

theorem bin0Hist_lit : bin0Hist = [1, 0, 0, 0, 0, 0, 0, 0] := rfl

theorem bin7Hist_lit : bin7Hist = [0, 0, 0, 0, 0, 0, 0, 1] := rfl

theorem binAvgHist_lit : binAvgHist = [1/2, 0, 0, 0, 0, 0, 0, 1/2] := rfl

theorem replicate_six_zero : List.replicate 6 (0 : ℚ) = [0, 0, 0, 0, 0, 0] := rfl

theorem replicate_twelve_zero :
    List.replicate 12 (0 : ℚ) = List.replicate 6 0 ++ List.replicate 6 0 := rfl

theorem dotL_zero_left (n : ℕ) (l : List ℚ) : dotL (List.replicate n (0 : ℚ)) l = 0 := by
  induction n generalizing l with
  | zero => simp [dotL]
  | succ k ih =>
    cases l with
    | nil => rw [List.replicate_succ]; rfl
    | cons y ys =>
      rw [List.replicate_succ, dotL, ih]
      ring

theorem extract_black :
    extract_image_features_pil (List.replicate 4096 ((0, 0, 0) : Pixel)) = blackVec := by
  rw [extract_pil_replicate]
  have hrange : List.range 8 = [0, 1, 2, 3, 4, 5, 6, 7] := rfl
  rw [padTo128_of_le (by simp [hrange])]
  simp only [hrange]
  norm_num [binIdx, pixSum, blackVec, bin0Hist_lit, replicate_twelve_zero,
    replicate_six_zero]

theorem extract_white :
    extract_image_features_pil (List.replicate 4096 ((255, 255, 255) : Pixel)) = whiteVec := by
  rw [extract_pil_replicate]
  have hrange : List.range 8 = [0, 1, 2, 3, 4, 5, 6, 7] := rfl
  rw [padTo128_of_le (by simp [hrange])]
  simp only [hrange]
  norm_num [binIdx, pixSum, whiteVec, bin7Hist_lit]

theorem bw_average : averageFeatures [blackVec, whiteVec] = bwAvgVec := by
  rw [averageFeatures_pair _ _
    (by norm_num [blackVec, whiteVec, bin0Hist, bin7Hist])]
  rw [blackVec, whiteVec, bwAvgVec, bin0Hist_lit, bin7Hist_lit, binAvgHist_lit,
    replicate_twelve_zero, replicate_six_zero]
  simp only [List.cons_append, List.nil_append, List.zipWith_cons_cons]
  rw [List.zipWith_append _ _ _ _ _ (by simp), List.zipWith_replicate,
    List.zipWith_replicate]
  norm_num

theorem sqL_blackVec : sqL blackVec = 3 := by
  rw [blackVec, bin0Hist_lit, replicate_twelve_zero, replicate_six_zero]
  simp only [List.cons_append, List.nil_append]
  norm_num [sqL, sqL_append, sqL_replicate]

theorem sqL_bwAvgVec : sqL bwAvgVec = 585250 / 4 := by
  rw [bwAvgVec, binAvgHist_lit]
  simp only [List.cons_append, List.nil_append]
  norm_num [sqL, sqL_append, sqL_replicate]

theorem dotL_black_avg : dotL blackVec bwAvgVec = 3 / 2 := by
  rw [blackVec, bwAvgVec, bin0Hist_lit, binAvgHist_lit, replicate_twelve_zero,
    replicate_six_zero]
  simp only [List.cons_append, List.nil_append]
  norm_num [dotL, dotL_append, dotL_replicate, dotL_zero_left]

/-- Self-similarity: the cosine confidence of a positive-norm vector with
itself is exactly 100. -/
theorem conf_self (S : ℚ) (hS : 0 < S) : (ConfVal.cosine S S S).conf = 100 := by
  simp only [ConfVal.conf]
  rw [Real.mul_self_sqrt (by exact_mod_cast le_of_lt hS)]
  rw [div_self (by exact_mod_cast ne_of_gt hS)]
  norm_num

/-- The confidence of the black query against the black/white average is
(far) below the 60 match threshold. -/
theorem bw_conf_le : (ConfVal.cosine (3 / 2) 3 (585250 / 4)).conf ≤ 60 := by
  simp only [ConfVal.conf]
  have hc3 : ((3 : ℚ) : ℝ) = 3 := by norm_num
  have hcy : ((585250 / 4 : ℚ) : ℝ) = 585250 / 4 := by norm_num
  have hcd : ((3 / 2 : ℚ) : ℝ) = 3 / 2 := by norm_num
  rw [hc3, hcy, hcd]
  have h1 : (1 : ℝ) ≤ Real.sqrt 3 := by
    rw [show (1 : ℝ) = Real.sqrt 1 by rw [Real.sqrt_one]]
    exact Real.sqrt_le_sqrt (by norm_num)
  have h2 : (300 : ℝ) ≤ Real.sqrt (585250 / 4) := by
    rw [Real.le_sqrt (by norm_num) (by norm_num)]
    norm_num
  have hpos : (0 : ℝ) < Real.sqrt 3 * Real.sqrt (585250 / 4) :=
    mul_pos (Real.sqrt_pos.mpr (by norm_num)) (Real.sqrt_pos.mpr (by norm_num))
  rw [div_mul_eq_mul_div, div_le_iff₀ hpos]
  nlinarith [h1, h2, Real.sqrt_nonneg (3 : ℝ), Real.sqrt_nonneg (585250 / 4 : ℝ)]

theorem collectFeatures_pair (f g : ImageFile) (imgf imgg : List Pixel)
    (hsf : imageExtensions.contains (lowerStr f.suffix) = true)
    (hsg : imageExtensions.contains (lowerStr g.suffix) = true)
    (hdf : f.decoded = some imgf) (hdg : g.decoded = some imgg) :
    collectFeatures [f, g] =
      [extract_image_features_pil imgf, extract_image_features_pil imgg] := by
  have hmf : lowerStr f.suffix ∈ imageExtensions := by simpa using hsf
  have hmg : lowerStr g.suffix ∈ imageExtensions := by simpa using hsg
  simp [collectFeatures, goodImages, hmf, hmg, extractOf, hdf, hdg, extract_pil_ne_nil]

/-- C3 (amended): enrolling an identifier with a single image on the local
backend, starting from an empty store, and immediately recognizing with that
same image yields that identifier as the unique top match with confidence
exactly 100 > 60 (self-similarity); multi-image enrollment does not carry
this guarantee (see the counterexample). -/
theorem single_image_roundtrip (s : SysState) (roll name : String) (f : ImageFile)
    (img : List Pixel) (now : String) (env : EnrollEnv) (top_k : ℕ)
    (hidx : s.index = false) (hempty : s.local_storage = [])
    (hsuf : imageExtensions.contains (lowerStr f.suffix) = true)
    (hdec : f.decoded = some img) (hk : 1 ≤ top_k)
    (hpos : 0 < sqL (extract_image_features_pil img)) :
    (enroll_student s roll name (some [f]) now env).1 = true ∧
    (recognize_student (enroll_student s roll name (some [f]) now env).2
        (some img) top_k RemoteQueryResult.err).1 =
      [⟨roll, name, ConfVal.cosine (sqL (extract_image_features_pil img))
          (sqL (extract_image_features_pil img)) (sqL (extract_image_features_pil img)),
        "local"⟩] ∧
    (ConfVal.cosine (sqL (extract_image_features_pil img))
        (sqL (extract_image_features_pil img))
        (sqL (extract_image_features_pil img))).conf = 100 ∧
    60 < (ConfVal.cosine (sqL (extract_image_features_pil img))
        (sqL (extract_image_features_pil img))
        (sqL (extract_image_features_pil img))).conf := by
  have hcf := collectFeatures_single f img hsuf hdec
  have hdata : enrollData roll name [f] now =
      ⟨roll, name, extract_image_features_pil img, now, 1⟩ := by
    rw [enrollData, hcf, averageFeatures_single]
    rfl
  have henroll := enroll_local_success s roll name [f] now env hidx
    (by rw [hcf]; exact List.cons_ne_nil _ _)
  have hidx2 : (enroll_student s roll name (some [f]) now env).2.index = false := by
    rw [enroll_index_eq, hidx]
  have hstore : (enroll_student s roll name (some [f]) now env).2.local_storage =
      [(roll, (⟨roll, name, extract_image_features_pil img, now, 1⟩ : StudentData))] := by
    rw [henroll, saveLocal_local_storage, hempty, hdata, dictSet_nil]
  refine ⟨by rw [henroll], ?_, conf_self _ hpos, by rw [conf_self _ hpos]; norm_num⟩
  rw [recognize_some_eq, if_neg (by rw [hidx2]; simp), hstore]
  simp only [localRecognize, localCandidates, List.filterMap_cons, List.filterMap_nil]
  rw [if_pos (show 0 < sqL (extract_image_features_pil img) ∧
    0 < sqL (⟨roll, name, extract_image_features_pil img, now, 1⟩ : StudentData).features
    from ⟨hpos, hpos⟩)]
  rw [List.mergeSort_singleton, List.take_of_length_le (by simpa using hk)]
  simp [localEntry, dotL_self]

/-- C3 (witness): instantiating the amended round-trip with the all-black
raster. -/
theorem single_image_roundtrip_witness :
    ((⟨false, [], none⟩ : SysState).index = false ∧
      (⟨false, [], none⟩ : SysState).local_storage = [] ∧
      imageExtensions.contains (lowerStr (".jpg" : String)) = true ∧
      (⟨".jpg", some (List.replicate 4096 ((0, 0, 0) : Pixel))⟩ : ImageFile).decoded =
        some (List.replicate 4096 ((0, 0, 0) : Pixel)) ∧
      (1 : ℕ) ≤ 3 ∧
      0 < sqL (extract_image_features_pil (List.replicate 4096 ((0, 0, 0) : Pixel)))) ∧
    ((enroll_student ⟨false, [], none⟩ "X" "Xavier"
        (some [⟨".jpg", some (List.replicate 4096 ((0, 0, 0) : Pixel))⟩]) "t0"
        ⟨RemoteWriteResult.ok, true⟩).1 = true ∧
      (recognize_student (enroll_student ⟨false, [], none⟩ "X" "Xavier"
          (some [⟨".jpg", some (List.replicate 4096 ((0, 0, 0) : Pixel))⟩]) "t0"
          ⟨RemoteWriteResult.ok, true⟩).2
          (some (List.replicate 4096 ((0, 0, 0) : Pixel))) 3 RemoteQueryResult.err).1 =
        [⟨"X", "Xavier", ConfVal.cosine
            (sqL (extract_image_features_pil (List.replicate 4096 ((0, 0, 0) : Pixel))))
            (sqL (extract_image_features_pil (List.replicate 4096 ((0, 0, 0) : Pixel))))
            (sqL (extract_image_features_pil (List.replicate 4096 ((0, 0, 0) : Pixel)))),
          "local"⟩] ∧
      (ConfVal.cosine (sqL (extract_image_features_pil (List.replicate 4096 ((0, 0, 0) : Pixel))))
          (sqL (extract_image_features_pil (List.replicate 4096 ((0, 0, 0) : Pixel))))
          (sqL (extract_image_features_pil (List.replicate 4096 ((0, 0, 0) : Pixel))))).conf = 100 ∧
      60 < (ConfVal.cosine
          (sqL (extract_image_features_pil (List.replicate 4096 ((0, 0, 0) : Pixel))))
          (sqL (extract_image_features_pil (List.replicate 4096 ((0, 0, 0) : Pixel))))
          (sqL (extract_image_features_pil (List.replicate 4096 ((0, 0, 0) : Pixel))))).conf) := by
  have hpos : 0 < sqL (extract_image_features_pil (List.replicate 4096 ((0, 0, 0) : Pixel))) := by
    rw [extract_black, sqL_blackVec]
    norm_num
  exact ⟨⟨rfl, rfl, by decide, rfl, by norm_num, hpos⟩,
    single_image_roundtrip ⟨false, [], none⟩ "X" "Xavier"
      ⟨".jpg", some (List.replicate 4096 ((0, 0, 0) : Pixel))⟩
      (List.replicate 4096 ((0, 0, 0) : Pixel)) "t0" ⟨RemoteWriteResult.ok, true⟩ 3
      rfl rfl (by decide) rfl (by norm_num) hpos⟩

/-- C3 (counterexample): enrolling "X" with two images — an all-black and an
all-white 64×64 raster — and recognizing with the black source image yields
"X" as the unique top match, but with confidence ≈ 0.23 ≤ 60: the claimed
`score > 60` round-trip fails for multi-image enrollments. -/
theorem roundtrip_counterexample :
    (enroll_student ⟨false, [], none⟩ "X" "Xavier"
        (some [⟨".jpg", some (List.replicate 4096 ((0, 0, 0) : Pixel))⟩,
               ⟨".jpg", some (List.replicate 4096 ((255, 255, 255) : Pixel))⟩]) "t0"
        ⟨RemoteWriteResult.ok, true⟩).1 = true ∧
    (recognize_student (enroll_student ⟨false, [], none⟩ "X" "Xavier"
        (some [⟨".jpg", some (List.replicate 4096 ((0, 0, 0) : Pixel))⟩,
               ⟨".jpg", some (List.replicate 4096 ((255, 255, 255) : Pixel))⟩]) "t0"
        ⟨RemoteWriteResult.ok, true⟩).2
        (some (List.replicate 4096 ((0, 0, 0) : Pixel))) 3 RemoteQueryResult.err).1 =
      [⟨"X", "Xavier", ConfVal.cosine (3 / 2) 3 (585250 / 4), "local"⟩] ∧
    (ConfVal.cosine (3 / 2) 3 (585250 / 4)).conf ≤ 60 := by
  have hsuf : imageExtensions.contains (lowerStr ".jpg") = true := by decide
  have hpair : collectFeatures
      [⟨".jpg", some (List.replicate 4096 ((0, 0, 0) : Pixel))⟩,
       ⟨".jpg", some (List.replicate 4096 ((255, 255, 255) : Pixel))⟩] =
      [blackVec, whiteVec] := by
    rw [collectFeatures_pair _ _ _ _ hsuf hsuf rfl rfl, extract_black, extract_white]
  have hdata : enrollData "X" "Xavier"
      [⟨".jpg", some (List.replicate 4096 ((0, 0, 0) : Pixel))⟩,
       ⟨".jpg", some (List.replicate 4096 ((255, 255, 255) : Pixel))⟩] "t0" =
      ⟨"X", "Xavier", bwAvgVec, "t0", 2⟩ := by
    rw [enrollData, hpair, bw_average]
    rfl
  have henroll := enroll_local_success ⟨false, [], none⟩ "X" "Xavier"
    [⟨".jpg", some (List.replicate 4096 ((0, 0, 0) : Pixel))⟩,
     ⟨".jpg", some (List.replicate 4096 ((255, 255, 255) : Pixel))⟩] "t0"
    ⟨RemoteWriteResult.ok, true⟩ rfl (by rw [hpair]; exact List.cons_ne_nil _ _)
  have hidx2 : (enroll_student ⟨false, [], none⟩ "X" "Xavier"
      (some [⟨".jpg", some (List.replicate 4096 ((0, 0, 0) : Pixel))⟩,
             ⟨".jpg", some (List.replicate 4096 ((255, 255, 255) : Pixel))⟩]) "t0"
      ⟨RemoteWriteResult.ok, true⟩).2.index = false := by
    rw [enroll_index_eq]
  have hstore : (enroll_student ⟨false, [], none⟩ "X" "Xavier"
      (some [⟨".jpg", some (List.replicate 4096 ((0, 0, 0) : Pixel))⟩,
             ⟨".jpg", some (List.replicate 4096 ((255, 255, 255) : Pixel))⟩]) "t0"
      ⟨RemoteWriteResult.ok, true⟩).2.local_storage =
      [("X", (⟨"X", "Xavier", bwAvgVec, "t0", 2⟩ : StudentData))] := by
    rw [henroll, saveLocal_local_storage, hdata, dictSet_nil]
  refine ⟨by rw [henroll], ?_, bw_conf_le⟩
  rw [recognize_some_eq, if_neg (by rw [hidx2]; simp), extract_black, hstore]
  simp only [localRecognize, localCandidates, List.filterMap_cons, List.filterMap_nil]
  rw [if_pos (show 0 < sqL blackVec ∧
    0 < sqL (⟨"X", "Xavier", bwAvgVec, "t0", 2⟩ : StudentData).features from
    ⟨by rw [sqL_blackVec]; norm_num,
     by show 0 < sqL bwAvgVec; rw [sqL_bwAvgVec]; norm_num⟩)]
  rw [List.mergeSort_singleton]
  simp only [localEntry, List.take_succ_cons, List.take_nil]
  rw [dotL_black_avg, sqL_blackVec]
  show [(⟨"X", "Xavier", ConfVal.cosine (3 / 2) 3 (sqL bwAvgVec), "local"⟩ : MatchResult)] = _
  rw [sqL_bwAvgVec]

end FaceRec
